import Mathlib

/-!
Verification of `src/graph.py`: a line-oriented graph-description parser
(`parse_graph`) and a renderer (`draw_graph`) that hands the parsed data to an
external force-directed layout and drawing library.

The parser is embedded shallowly: file content is a `String`, split into lines
at the newline character exactly as iterating over a text file does, and each
line is tokenized the way Python's `str.strip()` followed by `str.split()`
(no arguments) tokenizes it: maximal runs of non-whitespace characters.
Python's `IndexError` on a missing `parts[1]` / `parts[2]` is modelled by the
`Except` error branch.  A Python `set` is observed through membership only, so
the vertex collection is embedded as a duplicate-free list built by
insert-if-absent, matching `set.add`.
-/

namespace GraphPy

/-- Split a character stream into lines at the newline character, the way
iterating over an opened text file presents lines (the terminator itself is
irrelevant here because every line is subsequently stripped/tokenized). -/
def splitNL : List Char → List (List Char)
  | [] => [[]]
  | c :: cs =>
    if c = '\n' then [] :: splitNL cs
    else
      match splitNL cs with
      | [] => [[c]]
      | l :: ls => (c :: l) :: ls

/-- Accumulator for tokenization: `cur` holds the (reversed) characters of the
word currently being read. -/
def wordsAux : List Char → List Char → List (List Char)
  | [], cur => if cur = [] then [] else [cur.reverse]
  | c :: cs, cur =>
    if c.isWhitespace then
      if cur = [] then wordsAux cs [] else cur.reverse :: wordsAux cs []
    else wordsAux cs (c :: cur)

/-- Python `line.strip().split()`: the maximal whitespace-free runs of the
line, in order.  Leading/trailing whitespace contributes nothing, so the
`strip()` is already subsumed. -/
def pySplit (line : List Char) : List String :=
  (wordsAux line []).map (fun w => ⟨w⟩)

/-- Python `set.add` observed on a duplicate-free list: insert if absent. -/
def addVertex (vs : List String) (v : String) : List String :=
  if v ∈ vs then vs else vs ++ [v]

/-- The parser state: `vertices` embeds the Python set (duplicate-free list),
`edges` the Python list of pairs. -/
structure ParseState where
  vertices : List String
  edges : List (String × String)
deriving DecidableEq, Repr

/-- The message of Python's `IndexError` raised by `parts[1]` / `parts[2]`. -/
def indexError : String := "IndexError: list index out of range"

/-- One iteration of the `for line in file` loop of `parse_graph`:
`parts = line.strip().split()`; blank lines are skipped; `vertex` adds
`parts[1]` to the vertex set; `edge` appends `(parts[1], parts[2])`; any other
first token is ignored.  Accessing a missing `parts[i]` raises `IndexError`. -/
def processLine (st : ParseState) (line : List Char) : Except String ParseState :=
  match pySplit line with
  | [] => .ok st
  | p :: args =>
    if p = "vertex" then
      match args with
      | v :: _ => .ok { st with vertices := addVertex st.vertices v }
      | [] => .error indexError
    else if p = "edge" then
      match args with
      | a :: b :: _ => .ok { st with edges := st.edges ++ [(a, b)] }
      | _ => .error indexError
    else .ok st

/-- The whole loop of `parse_graph`, stopping at the first raised error. -/
def parseLines : List (List Char) → ParseState → Except String ParseState
  | [], st => .ok st
  | l :: ls, st =>
    match processLine st l with
    | .ok st1 => parseLines ls st1
    | .error e => .error e

/-- `parse_graph(file_path)`: reads the file content, folds the loop over its
lines starting from an empty vertex set and edge list, and returns
`(vertices, edges)`; an uncaught `IndexError` is the error branch. -/
def parse_graph (content : String) :
    Except String (List String × List (String × String)) :=
  match parseLines (splitNL content.data) ⟨[], []⟩ with
  | .ok st => .ok (st.vertices, st.edges)
  | .error e => .error e

/-- The first whitespace-separated token of a line, if any. -/
def firstTok (line : List Char) : Option String :=
  (pySplit line).head?

/-- Lines the loop skips without touching the state: blank lines and lines
whose first token is neither `vertex` nor `edge`. -/
def ignorableLine (line : List Char) : Bool :=
  match pySplit line with
  | [] => true
  | p :: _ => p ≠ "vertex" && p ≠ "edge"

/-- Lines on which the loop raises `IndexError`: a lone `vertex` token, or an
`edge` token followed by fewer than two further tokens. -/
def malformedLine (line : List Char) : Bool :=
  match pySplit line with
  | [p] => p == "vertex" || p == "edge"
  | [p, _] => p == "edge"
  | _ => false

/-- The edge pair a line contributes: `some (a, b)` exactly when the line
tokenizes as `edge a b ...`. -/
def edgeOf (line : List Char) : Option (String × String) :=
  match pySplit line with
  | p :: a :: b :: _ => if p = "edge" then some (a, b) else none
  | _ => none

/-- Modelled from the spec: the external graph library's directed-graph
container (`nx.DiGraph`), which is not part of this repository.  It is
observed through its node list and edge list: adding an existing node or edge
is a no-op, and adding an edge inserts missing endpoint nodes first. -/
structure DiGraph where
  nodes : List String
  edgeList : List (String × String)
deriving DecidableEq, Repr

def addNode (g : DiGraph) (v : String) : DiGraph :=
  if v ∈ g.nodes then g else { g with nodes := g.nodes ++ [v] }

def add_nodes_from (g : DiGraph) (vs : List String) : DiGraph :=
  vs.foldl addNode g

def addEdge (g : DiGraph) (e : String × String) : DiGraph :=
  let g1 := addNode (addNode g e.1) e.2
  if e ∈ g1.edgeList then g1 else { g1 with edgeList := g1.edgeList ++ [e] }

def add_edges_from (g : DiGraph) (es : List (String × String)) : DiGraph :=
  es.foldl addEdge g

/-- Everything `draw_graph` hands to the drawing library: the built graph,
the computed node positions, and each visual parameter exactly as the source
passes it. -/
structure RenderOutput (Pos : Type) where
  graph : DiGraph
  pos : Pos
  figsize : Nat × Nat
  node_size : Nat
  node_color : String
  arrowstyle : String
  arrowsize : Nat
  edge_color : String
  font_size : Nat
  font_family : String
  title : String
  axis : String
deriving DecidableEq, Repr

/-- Shallow embedding of `draw_graph`.  The layout routine
(`nx.spring_layout`) is external to the repository and the spec only says it
is a deterministic (seeded) force-directed layout, so it is abstracted as a
function of the graph, the seed, and the spread factor `k`; `draw_graph`
invokes it with `seed = 42` and `k = 1.5` and fixes every visual parameter to
the constant the source hardcodes. -/
def draw_graph {Pos : Type} (spring_layout : DiGraph → Nat → Rat → Pos)
    (vertices : List String) (edges : List (String × String)) :
    RenderOutput Pos :=
  let G := add_edges_from (add_nodes_from ⟨[], []⟩ vertices) edges
  { graph := G
    pos := spring_layout G 42 (3 / 2)
    figsize := (12, 8)
    node_size := 1500
    node_color := "lightblue"
    arrowstyle := "->"
    arrowsize := 20
    edge_color := "gray"
    font_size := 10
    font_family := "sans-serif"
    title := "Graph Visualization"
    axis := "off" }

theorem processLine_of_blank (st : ParseState) (line : List Char)
    (h : pySplit line = []) : processLine st line = .ok st := by
  simp [processLine, h]

theorem processLine_of_vertex (st : ParseState) (line : List Char) (v : String)
    (args : List String) (h : pySplit line = "vertex" :: v :: args) :
    processLine st line = .ok { st with vertices := addVertex st.vertices v } := by
  simp [processLine, h]

theorem processLine_of_vertex_missing (st : ParseState) (line : List Char)
    (h : pySplit line = ["vertex"]) :
    processLine st line = .error indexError := by
  simp [processLine, h]

theorem processLine_of_edge (st : ParseState) (line : List Char) (a b : String)
    (args : List String) (h : pySplit line = "edge" :: a :: b :: args) :
    processLine st line = .ok { st with edges := st.edges ++ [(a, b)] } := by
  simp [processLine, h]

theorem processLine_of_ignorable (st : ParseState) (line : List Char)
    (h : ignorableLine line = true) : processLine st line = .ok st := by
  rcases hp : pySplit line with _ | ⟨p, args⟩
  · simp [processLine, hp]
  · simp only [ignorableLine, hp, Bool.and_eq_true, decide_eq_true_eq] at h
    simp [processLine, hp, h.1, h.2]

theorem processLine_of_malformed (st : ParseState) (line : List Char)
    (h : malformedLine line = true) : processLine st line = .error indexError := by
  rcases hp : pySplit line with _ | ⟨p, _ | ⟨x, _ | ⟨y, rest⟩⟩⟩
  · simp [malformedLine, hp] at h
  · simp only [malformedLine, hp, Bool.or_eq_true, beq_iff_eq] at h
    rcases h with h | h <;> subst h <;> simp [processLine, hp]
  · simp only [malformedLine, hp, beq_iff_eq] at h
    subst h
    simp [processLine, hp]
  · simp [malformedLine, hp] at h

theorem processLine_ok_of_not_malformed (st : ParseState) (line : List Char)
    (h : malformedLine line = false) : ∃ st1, processLine st line = .ok st1 := by
  rcases hp : pySplit line with _ | ⟨p, _ | ⟨x, _ | ⟨y, rest⟩⟩⟩
  · exact ⟨st, by simp [processLine, hp]⟩
  · simp only [malformedLine, hp, Bool.or_eq_false_iff, beq_eq_false_iff_ne] at h
    exact ⟨st, by simp [processLine, hp, h.1, h.2]⟩
  · simp only [malformedLine, hp, beq_eq_false_iff_ne] at h
    by_cases hv : p = "vertex"
    · subst hv
      exact ⟨{ st with vertices := addVertex st.vertices x },
        by simp [processLine, hp]⟩
    · exact ⟨st, by simp [processLine, hp, hv, h]⟩
  · by_cases hv : p = "vertex"
    · subst hv
      exact ⟨{ st with vertices := addVertex st.vertices x },
        by simp [processLine, hp]⟩
    · by_cases he : p = "edge"
      · subst he
        exact ⟨{ st with edges := st.edges ++ [(x, y)] },
          by simp [processLine, hp]⟩
      · exact ⟨st, by simp [processLine, hp, hv, he]⟩

theorem edges_of_processLine (st st1 : ParseState) (line : List Char)
    (h : processLine st line = .ok st1) :
    st1.edges = st.edges ++ (edgeOf line).toList := by
  rcases hp : pySplit line with _ | ⟨p, _ | ⟨x, _ | ⟨y, rest⟩⟩⟩
  · simp [processLine, hp] at h
    subst h
    simp [edgeOf, hp]
  · by_cases hv : p = "vertex"
    · subst hv
      simp [processLine, hp] at h
    · by_cases he : p = "edge"
      · subst he
        simp [processLine, hp] at h
      · simp [processLine, hp, hv, he] at h
        subst h
        simp [edgeOf, hp]
  · by_cases hv : p = "vertex"
    · subst hv
      simp [processLine, hp] at h
      subst h
      simp [edgeOf, hp]
    · by_cases he : p = "edge"
      · subst he
        simp [processLine, hp, hv] at h
      · simp [processLine, hp, hv, he] at h
        subst h
        simp [edgeOf, hp]
  · by_cases hv : p = "vertex"
    · subst hv
      simp [processLine, hp] at h
      subst h
      simp [edgeOf, hp]
    · by_cases he : p = "edge"
      · subst he
        simp [processLine, hp] at h
        subst h
        simp [edgeOf, hp]
      · simp [processLine, hp, hv, he] at h
        subst h
        simp [edgeOf, hp, he]

theorem vertices_of_processLine (st st1 : ParseState) (line : List Char)
    (h : processLine st line = .ok st1) :
    st1.vertices = st.vertices ∨ ∃ v, st1.vertices = addVertex st.vertices v := by
  rcases hp : pySplit line with _ | ⟨p, _ | ⟨x, rest⟩⟩
  · simp [processLine, hp] at h
    subst h
    exact .inl rfl
  · by_cases hv : p = "vertex"
    · subst hv
      simp [processLine, hp] at h
    · by_cases he : p = "edge"
      · subst he
        simp [processLine, hp] at h
      · simp [processLine, hp, hv, he] at h
        subst h
        exact .inl rfl
  · by_cases hv : p = "vertex"
    · subst hv
      simp [processLine, hp] at h
      subst h
      exact .inr ⟨x, rfl⟩
    · by_cases he : p = "edge"
      · subst he
        rcases rest with _ | ⟨y, rest⟩
        · simp [processLine, hp, hv] at h
        · simp [processLine, hp, hv] at h
          subst h
          exact .inl rfl
      · simp [processLine, hp, hv, he] at h
        subst h
        exact .inl rfl

theorem addVertex_nodup (vs : List String) (v : String) (h : vs.Nodup) :
    (addVertex vs v).Nodup := by
  unfold addVertex
  split
  · exact h
  · next hv =>
    refine h.append (List.nodup_singleton v) ?_
    intro x hx hx1
    simp only [List.mem_singleton] at hx1
    subst hx1
    exact hv hx

theorem processLine_error_eq (st : ParseState) (line : List Char) (e : String)
    (h : processLine st line = .error e) : e = indexError := by
  cases hm : malformedLine line with
  | true =>
    rw [processLine_of_malformed st line hm] at h
    cases h
    rfl
  | false =>
    obtain ⟨st1, h1⟩ := processLine_ok_of_not_malformed st line hm
    rw [h1] at h
    cases h

theorem parseLines_error_of_malformed (l : List Char) (hmal : malformedLine l = true) :
    ∀ (ls : List (List Char)) (st : ParseState), l ∈ ls →
      parseLines ls st = .error indexError := by
  intro ls
  induction ls with
  | nil =>
    intro st hmem
    cases hmem
  | cons hd tl ih =>
    intro st hmem
    rcases List.mem_cons.mp hmem with rfl | hmem
    · simp [parseLines, processLine_of_malformed st l hmal]
    · cases hpe : processLine st hd with
      | error e =>
        have he := processLine_error_eq st hd e hpe
        subst he
        simp [parseLines, hpe]
      | ok stm =>
        have h1 : parseLines (hd :: tl) st = parseLines tl stm := by
          simp [parseLines, hpe]
        rw [h1]
        exact ih stm hmem

theorem parseLines_filter_ignorable :
    ∀ (ls : List (List Char)) (st : ParseState),
      parseLines ls st = parseLines (ls.filter (fun l => !ignorableLine l)) st := by
  intro ls
  induction ls with
  | nil =>
    intro st
    rfl
  | cons hd tl ih =>
    intro st
    cases hig : ignorableLine hd with
    | true =>
      have h1 : parseLines (hd :: tl) st = parseLines tl st := by
        simp [parseLines, processLine_of_ignorable st hd hig]
      rw [h1, ih st, List.filter_cons, hig]
      simp
    | false =>
      rw [List.filter_cons, hig]
      simp only [Bool.not_false, if_pos]
      cases hpe : processLine st hd with
      | error e => simp [parseLines, hpe]
      | ok stm => simp [parseLines, hpe, ih stm]

theorem parseLines_ok_edges :
    ∀ (ls : List (List Char)) (st st1 : ParseState),
      parseLines ls st = .ok st1 →
      st1.edges = st.edges ++ ls.filterMap edgeOf := by
  intro ls
  induction ls with
  | nil =>
    intro st st1 h
    simp only [parseLines, Except.ok.injEq] at h
    subst h
    simp
  | cons hd tl ih =>
    intro st st1 h
    cases hpe : processLine st hd with
    | error e => simp [parseLines, hpe] at h
    | ok stm =>
      simp only [parseLines, hpe] at h
      rw [ih stm st1 h, edges_of_processLine st stm hd hpe, List.filterMap_cons]
      cases heo : edgeOf hd with
      | none => simp
      | some q => simp

theorem parseLines_ok_nodup :
    ∀ (ls : List (List Char)) (st st1 : ParseState),
      parseLines ls st = .ok st1 → st.vertices.Nodup → st1.vertices.Nodup := by
  intro ls
  induction ls with
  | nil =>
    intro st st1 h hn
    simp only [parseLines, Except.ok.injEq] at h
    subst h
    exact hn
  | cons hd tl ih =>
    intro st st1 h hn
    cases hpe : processLine st hd with
    | error e => simp [parseLines, hpe] at h
    | ok stm =>
      simp only [parseLines, hpe] at h
      refine ih stm st1 h ?_
      rcases vertices_of_processLine st stm hd hpe with hv | ⟨v, hv⟩
      · rw [hv]
        exact hn
      · rw [hv]
        exact addVertex_nodup st.vertices v hn

theorem parseLines_ok_no_malformed :
    ∀ (ls : List (List Char)) (st st1 : ParseState),
      parseLines ls st = .ok st1 → ∀ l ∈ ls, malformedLine l = false := by
  intro ls
  induction ls with
  | nil =>
    intro st st1 h l hl
    cases hl
  | cons hd tl ih =>
    intro st st1 h l hl
    cases hpe : processLine st hd with
    | error e => simp [parseLines, hpe] at h
    | ok stm =>
      simp only [parseLines, hpe] at h
      rcases List.mem_cons.mp hl with rfl | hl
      · cases hm : malformedLine l with
        | false => rfl
        | true =>
          rw [processLine_of_malformed st l hm] at hpe
          cases hpe
      · exact ih stm st1 h l hl

theorem edgeOf_isSome_of_not_malformed (line : List Char)
    (h : malformedLine line = false) :
    (edgeOf line).isSome = (firstTok line == some "edge") := by
  rcases hp : pySplit line with _ | ⟨p, _ | ⟨x, _ | ⟨y, rest⟩⟩⟩
  · simp [edgeOf, firstTok, hp]
  · simp only [malformedLine, hp, Bool.or_eq_false_iff, beq_eq_false_iff_ne] at h
    simp [edgeOf, firstTok, hp, h.2]
  · simp only [malformedLine, hp, beq_eq_false_iff_ne] at h
    simp [edgeOf, firstTok, hp, h]
  · by_cases he : p = "edge"
    · simp [edgeOf, firstTok, hp, he]
    · simp [edgeOf, firstTok, hp, he]

theorem length_filterMap_edgeOf :
    ∀ ls : List (List Char), (∀ l ∈ ls, malformedLine l = false) →
      (ls.filterMap edgeOf).length =
        ls.countP (fun l => firstTok l == some "edge") := by
  intro ls
  induction ls with
  | nil =>
    intro _
    rfl
  | cons hd tl ih =>
    intro h
    have hhd := h hd (List.mem_cons_self hd tl)
    have htl := ih (fun l hl => h l (List.mem_cons_of_mem hd hl))
    rw [List.filterMap_cons, List.countP_cons]
    cases hs : edgeOf hd with
    | none =>
      have hft : (firstTok hd == some "edge") = false := by
        rw [← edgeOf_isSome_of_not_malformed hd hhd, hs]
        rfl
      simp [hft, htl]
    | some q =>
      have hft : (firstTok hd == some "edge") = true := by
        rw [← edgeOf_isSome_of_not_malformed hd hhd, hs]
        rfl
      simp [hft, htl]

theorem count_filterMap_edgeOf (p : String × String) :
    ∀ ls : List (List Char),
      (ls.filterMap edgeOf).count p =
        ls.countP (fun l => edgeOf l == some p) := by
  intro ls
  induction ls with
  | nil => rfl
  | cons hd tl ih =>
    rw [List.filterMap_cons, List.countP_cons]
    cases hs : edgeOf hd with
    | none => simp [hs, ih]
    | some q =>
      by_cases hpq : q = p
      · subst hpq
        simp [hs, ih, List.count_cons]
      · simp [hs, ih, List.count_cons, hpq, Ne.symm hpq]

theorem parse_graph_ok_elim (content : String) (vs : List String)
    (es : List (String × String)) (h : parse_graph content = .ok (vs, es)) :
    ∃ st : ParseState, parseLines (splitNL content.data) ⟨[], []⟩ = .ok st ∧
      st.vertices = vs ∧ st.edges = es := by
  unfold parse_graph at h
  cases hq : parseLines (splitNL content.data) ⟨[], []⟩ with
  | error e =>
    rw [hq] at h
    cases h
  | ok st =>
    rw [hq] at h
    simp only [Except.ok.injEq, Prod.mk.injEq] at h
    exact ⟨st, rfl, h.1, h.2⟩

theorem parse_graph_error_of_line (content : String) (l : List Char)
    (hmem : l ∈ splitNL content.data) (hmal : malformedLine l = true) :
    parse_graph content = .error indexError := by
  have he := parseLines_error_of_malformed l hmal (splitNL content.data) ⟨[], []⟩ hmem
  simp [parse_graph, he]

/-- C1: parsing the file content `"vertex A\nvertex B\nedge A B\n"` with
`parse_graph` returns the vertex set `{A, B}` and the edge sequence
`[(A, B)]`. -/
theorem claim_C1_parse_example :
    parse_graph "vertex A\nvertex B\nedge A B\n" =
      .ok (["A", "B"], [("A", "B")]) ∧
    (["A", "B"] : List String).toFinset = ({"A", "B"} : Finset String) :=
  ⟨rfl, by decide⟩

/-- C2: any input containing a line tokenizing as `edge` followed by exactly
one further token makes `parse_graph` fail with the uncaught `IndexError`
from the missing `parts[2]`, rather than accept or skip the line. -/
theorem claim_C2_edge_missing_arg (content : String) (l : List Char)
    (x : String) (hmem : l ∈ splitNL content.data)
    (htok : pySplit l = ["edge", x]) :
    parse_graph content = .error indexError := by
  refine parse_graph_error_of_line content l hmem ?_
  simp [malformedLine, htok]

theorem claim_C2_witness :
    "edge onlyone".data ∈ splitNL "vertex A\nedge onlyone".data ∧
    parse_graph "vertex A\nedge onlyone" = .error indexError :=
  ⟨by decide,
    claim_C2_edge_missing_arg "vertex A\nedge onlyone" "edge onlyone".data
      "onlyone" (by decide) (by decide)⟩

/-- C3: inserting blank lines or lines whose first token is neither `vertex`
nor `edge` at any positions leaves the result of `parse_graph` unchanged:
two contents whose non-ignorable lines agree parse identically. -/
theorem claim_C3_ignorable_lines (s t : String)
    (h : (splitNL s.data).filter (fun l => !ignorableLine l) =
         (splitNL t.data).filter (fun l => !ignorableLine l)) :
    parse_graph s = parse_graph t := by
  unfold parse_graph
  rw [parseLines_filter_ignorable (splitNL s.data) ⟨[], []⟩, h,
    ← parseLines_filter_ignorable (splitNL t.data) ⟨[], []⟩]

theorem claim_C3_witness :
    (splitNL "vertex A\nedge A B".data).filter (fun l => !ignorableLine l) =
      (splitNL "\nvertex A\nfoo bar\n\nedge A B\n".data).filter
        (fun l => !ignorableLine l) ∧
    parse_graph "vertex A\nedge A B" =
      parse_graph "\nvertex A\nfoo bar\n\nedge A B\n" :=
  ⟨by decide, claim_C3_ignorable_lines _ _ (by decide)⟩

/-- C4: the vertex collection returned by `parse_graph` never contains
duplicates: it is duplicate-free and every identifier occurring in it occurs
exactly once, no matter how many `vertex` lines declared it. -/
theorem claim_C4_vertex_uniqueness (content : String) (vs : List String)
    (es : List (String × String)) (h : parse_graph content = .ok (vs, es)) :
    vs.Nodup ∧ ∀ v ∈ vs, vs.count v = 1 := by
  obtain ⟨st, hq, hv, _⟩ := parse_graph_ok_elim content vs es h
  have hn : vs.Nodup := by
    rw [← hv]
    exact parseLines_ok_nodup _ _ _ hq List.nodup_nil
  exact ⟨hn, fun v hmem => List.count_eq_one_of_mem hn hmem⟩

theorem claim_C4_witness :
    (["A", "B"] : List String).Nodup ∧
      ∀ v ∈ (["A", "B"] : List String), (["A", "B"] : List String).count v = 1 :=
  claim_C4_vertex_uniqueness "vertex A\nvertex A\nvertex B" ["A", "B"] [] rfl

/-- C5: edges are never deduplicated: on success the edge sequence has one
entry per `edge` line, and each pair `p` occurs as many times as there are
lines contributing it, so n identical `edge a b` lines yield n occurrences
of `(a, b)`. -/
theorem claim_C5_edges_not_deduplicated (content : String) (vs : List String)
    (es : List (String × String)) (h : parse_graph content = .ok (vs, es)) :
    es.length =
      (splitNL content.data).countP (fun l => firstTok l == some "edge") ∧
    ∀ p : String × String,
      es.count p = (splitNL content.data).countP (fun l => edgeOf l == some p) := by
  obtain ⟨st, hq, _, he⟩ := parse_graph_ok_elim content vs es h
  have hed : es = (splitNL content.data).filterMap edgeOf := by
    rw [← he]
    have h1 := parseLines_ok_edges _ _ _ hq
    simpa using h1
  constructor
  · rw [hed]
    exact length_filterMap_edgeOf _ (parseLines_ok_no_malformed _ _ _ hq)
  · intro p
    rw [hed]
    exact count_filterMap_edgeOf p _

theorem claim_C5_witness :
    ([("A", "B"), ("A", "B")] : List (String × String)).length =
      (splitNL "edge A B\nedge A B".data).countP
        (fun l => firstTok l == some "edge") ∧
    ([("A", "B"), ("A", "B")] : List (String × String)).count ("A", "B") =
      (splitNL "edge A B\nedge A B".data).countP
        (fun l => edgeOf l == some ("A", "B")) :=
  ⟨(claim_C5_edges_not_deduplicated "edge A B\nedge A B" []
      [("A", "B"), ("A", "B")] rfl).1,
   (claim_C5_edges_not_deduplicated "edge A B\nedge A B" []
      [("A", "B"), ("A", "B")] rfl).2 ("A", "B")⟩

/-- C6: a line `edge a b` contributes exactly the ordered pair `(a, b)` —
first argument as source, second as destination — and the returned edge
sequence is precisely the in-order sequence of contributions of the `edge`
lines of the file. -/
theorem claim_C6_edge_order (content : String) (vs : List String)
    (es : List (String × String)) (h : parse_graph content = .ok (vs, es)) :
    es = (splitNL content.data).filterMap edgeOf := by
  obtain ⟨st, hq, _, he⟩ := parse_graph_ok_elim content vs es h
  rw [← he]
  have h1 := parseLines_ok_edges _ _ _ hq
  simpa using h1

theorem claim_C6_witness :
    ([("B", "A"), ("A", "B")] : List (String × String)) =
      (splitNL "edge B A\nvertex A\nedge A B".data).filterMap edgeOf :=
  claim_C6_edge_order "edge B A\nvertex A\nedge A B" ["A"]
    [("B", "A"), ("A", "B")] rfl

/-- C7: an `edge a b` line whose endpoints were never declared by any
`vertex` line still produces `(a, b)` in the returned edge sequence:
membership needs no referential hypothesis about the vertex set. -/
theorem claim_C7_no_referential_validation (content : String) (vs : List String)
    (es : List (String × String)) (a b : String) (l : List Char)
    (h : parse_graph content = .ok (vs, es)) (hmem : l ∈ splitNL content.data)
    (hedge : edgeOf l = some (a, b)) : (a, b) ∈ es := by
  obtain ⟨st, hq, _, he⟩ := parse_graph_ok_elim content vs es h
  rw [← he]
  have h1 := parseLines_ok_edges _ _ _ hq
  rw [show st.edges = (splitNL content.data).filterMap edgeOf from by simpa using h1]
  exact List.mem_filterMap.mpr ⟨l, hmem, hedge⟩

theorem claim_C7_witness :
    "edge X Y".data ∈ splitNL "edge X Y".data ∧
    edgeOf "edge X Y".data = some ("X", "Y") ∧
    ("X", "Y") ∈ ([("X", "Y")] : List (String × String)) :=
  ⟨by decide, by decide,
    claim_C7_no_referential_validation "edge X Y" [] [("X", "Y")] "X" "Y"
      "edge X Y".data rfl (by decide) (by decide)⟩

/-- C8: the renderer is deterministic: for any layout routine, two calls of
`draw_graph` on equal vertex sets and edge sequences produce identical render
output, the node positions are exactly the seeded layout of the built graph
at seed 42 and spread factor `k = 1.5`, and every visual parameter is the
fixed constant the source hardcodes. -/
theorem claim_C8_renderer_deterministic {Pos : Type}
    (spring_layout : DiGraph → Nat → Rat → Pos)
    (vs1 vs2 : List String) (es1 es2 : List (String × String))
    (hv : vs1 = vs2) (he : es1 = es2) :
    draw_graph spring_layout vs1 es1 = draw_graph spring_layout vs2 es2 ∧
    (draw_graph spring_layout vs1 es1).pos =
      spring_layout (draw_graph spring_layout vs1 es1).graph 42 (3 / 2) ∧
    (draw_graph spring_layout vs1 es1).figsize = (12, 8) ∧
    (draw_graph spring_layout vs1 es1).node_size = 1500 ∧
    (draw_graph spring_layout vs1 es1).node_color = "lightblue" ∧
    (draw_graph spring_layout vs1 es1).arrowstyle = "->" ∧
    (draw_graph spring_layout vs1 es1).arrowsize = 20 ∧
    (draw_graph spring_layout vs1 es1).edge_color = "gray" ∧
    (draw_graph spring_layout vs1 es1).font_size = 10 ∧
    (draw_graph spring_layout vs1 es1).font_family = "sans-serif" ∧
    (draw_graph spring_layout vs1 es1).title = "Graph Visualization" := by
  subst hv
  subst he
  exact ⟨rfl, rfl, rfl, rfl, rfl, rfl, rfl, rfl, rfl, rfl, rfl⟩

theorem claim_C8_witness :
    draw_graph (fun _ _ _ => ()) ["A"] [("A", "B")] =
      draw_graph (fun _ _ _ => ()) ["A"] [("A", "B")] ∧
    (draw_graph (fun _ _ _ => ()) ["A"] [("A", "B")]).pos =
      (fun _ _ _ => ()) (draw_graph (fun _ _ _ => ()) ["A"] [("A", "B")]).graph
        42 ((3 : Rat) / 2) ∧
    (draw_graph (fun _ _ _ => ()) ["A"] [("A", "B")]).figsize = (12, 8) ∧
    (draw_graph (fun _ _ _ => ()) ["A"] [("A", "B")]).node_size = 1500 ∧
    (draw_graph (fun _ _ _ => ()) ["A"] [("A", "B")]).node_color = "lightblue" ∧
    (draw_graph (fun _ _ _ => ()) ["A"] [("A", "B")]).arrowstyle = "->" ∧
    (draw_graph (fun _ _ _ => ()) ["A"] [("A", "B")]).arrowsize = 20 ∧
    (draw_graph (fun _ _ _ => ()) ["A"] [("A", "B")]).edge_color = "gray" ∧
    (draw_graph (fun _ _ _ => ()) ["A"] [("A", "B")]).font_size = 10 ∧
    (draw_graph (fun _ _ _ => ()) ["A"] [("A", "B")]).font_family =
      "sans-serif" ∧
    (draw_graph (fun _ _ _ => ()) ["A"] [("A", "B")]).title =
      "Graph Visualization" :=
  claim_C8_renderer_deterministic (fun _ _ _ => ()) ["A"] ["A"]
    [("A", "B")] [("A", "B")] rfl rfl

/-- C9: a line consisting of the single token `vertex` is not silently
ignored: `parse_graph` fails on it with the same uncaught `IndexError` the
spec describes for short `edge` lines, raised by the missing `parts[1]`. -/
theorem claim_C9_vertex_missing_arg (content : String) (l : List Char)
    (hmem : l ∈ splitNL content.data) (htok : pySplit l = ["vertex"]) :
    parse_graph content = .error indexError := by
  refine parse_graph_error_of_line content l hmem ?_
  simp [malformedLine, htok]

theorem claim_C9_witness :
    pySplit "vertex".data = ["vertex"] ∧
    parse_graph "vertex A\nvertex" = .error indexError :=
  ⟨by decide,
    claim_C9_vertex_missing_arg "vertex A\nvertex" "vertex".data
      (by decide) (by decide)⟩

/-- C10: surplus trailing tokens are ignored: a line tokenizing as
`vertex a extra...` adds exactly the identifier `a`, and one tokenizing as
`edge a b extra...` appends exactly the pair `(a, b)`; in both cases the
loop iteration succeeds rather than failing. -/
theorem claim_C10_extra_tokens_ignored (st : ParseState) (line : List Char)
    (a b : String) (extra : List String) :
    (pySplit line = "vertex" :: a :: extra →
      processLine st line = .ok { st with vertices := addVertex st.vertices a }) ∧
    (pySplit line = "edge" :: a :: b :: extra →
      processLine st line = .ok { st with edges := st.edges ++ [(a, b)] }) :=
  ⟨fun h => processLine_of_vertex st line a extra h,
   fun h => processLine_of_edge st line a b extra h⟩

theorem claim_C10_witness :
    processLine ⟨[], []⟩ "vertex A x y".data = .ok ⟨["A"], []⟩ ∧
    processLine ⟨[], []⟩ "edge A B z".data = .ok ⟨[], [("A", "B")]⟩ :=
  ⟨(claim_C10_extra_tokens_ignored ⟨[], []⟩ "vertex A x y".data "A" "B"
      ["x", "y"]).1 (by decide),
   (claim_C10_extra_tokens_ignored ⟨[], []⟩ "edge A B z".data "A" "B"
      ["z"]).2 (by decide)⟩

end GraphPy
